import Mathlib

/-!
Verification development for the mypets GraphQL API (NestJS + TypeORM).

This file gives a shallow embedding of the data model and of the service
methods of `AnimalService` (src/animal/animal.service.ts),
`PersonService` (src/person/person.service.ts), the two resolvers and the
`TranslationHelper`, and proves or refutes the specification claims about
pagination, the aggregate statistics queries, referential integrity on pet
create/update, the error taxonomy and the translation enrichment.

Modelling conventions:
- the relational store is modelled as in-memory lists of records; a query
  with `relations` loaded is modelled by records that embed the related
  record(s);
- JavaScript numbers used as ids, counts and offsets are `Nat`; dates are
  epoch milliseconds (`Nat`), so that `new Date(x) < new Date(y)` is `<`
  on `Nat` and `toISOString()` equality is `Nat` equality; weights are
  modelled as `Nat` since the claims use only ordering and exact equality;
- `Math.max(...xs)` is `jsMax : List Nat -> Option Nat`, with `none`
  standing for the `-Infinity` returned on an empty argument list (a
  comparison `count === -Infinity` is then `some count = none`, false);
- `Number(undefined)` is `JsNum.nan`; TypeORM query-builder calls are
  modelled by an explicit query description (`AnimalQuery`) plus an
  execution function;
- thrown/caught exceptions are `Except AppError`; mutating repository
  calls return the (possibly unchanged) store next to the result;
- the external translation fetch is an oracle parameter
  `text -> toLang -> fromLang -> FetchOutcome`.
-/

/-- Failure kinds surfaced to callers: `NotFoundException`,
`BadRequestException` and `InternalServerErrorException`. -/
inductive AppError where
  | notFound
  | badRequest
  | internal
deriving DecidableEq

/-- JavaScript `String.prototype.toLowerCase` on the code points of the
string. -/
def jsToLower (s : String) : String := ⟨s.data.map Char.toLower⟩

/-- JavaScript `String.prototype.trim`: whitespace removed from both ends. -/
def jsTrim (s : String) : String :=
  ⟨((s.data.dropWhile Char.isWhitespace).reverse.dropWhile Char.isWhitespace).reverse⟩

/-- JavaScript `Math.max(...xs)`: `-Infinity` (here `none`) when `xs` is
empty, otherwise the greatest element. -/
def jsMax (xs : List Nat) : Option Nat :=
  xs.foldl (fun m n => match m with | none => some n | some v => some (Nat.max v n)) none

/-- A JavaScript number as produced by `Number(x)` on an optional `Nat`
argument: `Number(undefined)` is `NaN`. -/
inductive JsNum where
  | nan
  | num (n : Nat)
deriving DecidableEq

/-- `Number(x)` for `x` an optional integer argument. -/
def jsNumber : Option Nat → JsNum
  | none => .nan
  | some n => .num n

/-- The `Person` entity (src/person/person.entity.ts): id, last name,
first name, email, phone number. The `animals` relation is only present on
records fetched with `relations: ['animals']`; see `PersonWithAnimals`. -/
structure Person where
  id : Nat
  lastName : String
  firstName : String
  email : String
  phoneNumber : String
deriving DecidableEq

/-- The `Animal` entity (src/animal/animal.entity.ts) with its `owner`
`ManyToOne` relation loaded. -/
structure Animal where
  id : Nat
  name : String
  dateOfBirth : Nat
  species : String
  breed : String
  color : String
  weight : Nat
  owner : Person
deriving DecidableEq

/-- A `Person` row fetched with `relations: ['animals']`. -/
structure PersonWithAnimals where
  id : Nat
  lastName : String
  firstName : String
  email : String
  phoneNumber : String
  animals : List Animal
deriving DecidableEq

/-- The persistent store: the `person` and `animal` tables plus the
auto-increment counter for animal ids. -/
structure DB where
  persons : List Person
  animals : List Animal
  nextAnimalId : Nat
deriving DecidableEq

/-- `CreateAnimalInput` (src/animal/dto/create-animal.input.ts): all
fields required. -/
structure CreateAnimalInput where
  name : String
  dateOfBirth : Nat
  species : String
  breed : String
  color : String
  weight : Nat
  ownerId : Nat
deriving DecidableEq

/-- `UpdateAnimalInput` (src/animal/dto/update-animal.input.ts): all
fields optional. -/
structure UpdateAnimalInput where
  name : Option String := none
  dateOfBirth : Option Nat := none
  species : Option String := none
  breed : Option String := none
  color : Option String := none
  weight : Option Nat := none
  ownerId : Option Nat := none
deriving DecidableEq

/-- `UpdatePersonInput` (src/person/dto/update-person.input.ts): all
fields optional. -/
structure UpdatePersonInput where
  lastName : Option String := none
  firstName : Option String := none
  email : Option String := none
  phoneNumber : Option String := none
deriving DecidableEq

/-- `TopOwner` model (src/person/models/top-owner.model.ts). -/
structure TopOwner where
  ownerId : Nat
  fullName : String
  count : Nat
deriving DecidableEq

/-- `HeaviestGroup` model (src/person/models/heaviest-group.model.ts). -/
structure HeaviestGroup where
  ownerId : Nat
  fullName : String
  totalWeight : Nat
deriving DecidableEq

/-- `HeaviestAnimal` model (src/animal/models/heaviest-animal.model.ts). -/
structure HeaviestAnimal where
  animalId : Nat
  name : String
  species : String
  weight : Nat
  ownerFullName : String
  ownerId : Nat
deriving DecidableEq

/-- Outcome of one network call of the translation helper: the fetch may
throw, or return a JSON body whose `responseData.translatedText` may be
absent (`ok none`) or present. -/
inductive FetchOutcome where
  | fail
  | ok (translatedText : Option String)
deriving DecidableEq

/-- The external translation endpoint as an oracle:
arguments are the text, the target language and the source language. -/
def TrOracle : Type := String → String → String → FetchOutcome

/-- `TranslationHelper.translate(text, toLang, fromLang)`
(src/translation/translation.helper.ts): empty text is returned as is;
a failed fetch, a missing `translatedText`, or a falsy (empty) translated
text all fall back to the original text. -/
def TranslationHelper.translate (oracle : TrOracle) (text : String)
    (toLang : String := "fr") (fromLang : String := "en") : String :=
  if text = "" then text
  else
    match oracle text toLang fromLang with
    | .fail => text
    | .ok none => text
    | .ok (some t) => if t = "" then text else t

/-- The query built by `AnimalService.findAll`: an optional `WHERE
LOWER(animal.species) = :species` clause bound to the lowercased filter,
plus the `skip` and `take` arguments as JavaScript numbers. -/
structure AnimalQuery where
  speciesFilter : Option String
  skipVal : JsNum
  takeVal : JsNum
deriving DecidableEq

/-- Query construction of `AnimalService.findAll`: the `where` clause is
added only when `species` is truthy (absent and `""` are falsy), and the
raw optional `start` and `limit` are converted with `Number(...)`, so an
omitted argument becomes `NaN`. -/
def AnimalService.findAllQuery (start limit : Option Nat) (species : Option String) :
    AnimalQuery :=
  { speciesFilter :=
      match species with
      | none => none
      | some s => if s = "" then none else some (jsToLower s)
    skipVal := jsNumber start
    takeVal := jsNumber limit }

/-- The rows matching the query's `where` clause, before pagination. -/
def matchingAnimals (table : List Animal) (q : AnimalQuery) : List Animal :=
  match q.speciesFilter with
  | none => table
  | some s => table.filter (fun a => decide (jsToLower a.species = s))

/-- `getManyAndCount` on the built query: the `OFFSET`/`LIMIT` page of the
matching rows together with their count before pagination. TypeORM's
`skip`/`take` reject a `NaN` argument, a failure the service's catch block
re-surfaces as an internal error. -/
def runAnimalQuery (table : List Animal) (q : AnimalQuery) :
    Except AppError (List Animal × Nat) :=
  let ms := matchingAnimals table q
  match q.skipVal, q.takeVal with
  | .num sk, .num tk => .ok ((ms.drop sk).take tk, ms.length)
  | _, _ => .error .internal

/-- `AnimalService.findAll(start?, limit?, species?)`. -/
def AnimalService.findAll (table : List Animal) (start limit : Option Nat)
    (species : Option String) : Except AppError (List Animal × Nat) :=
  runAnimalQuery table (AnimalService.findAllQuery start limit species)

/-- `AnimalResolver.findAllAnimals`: the nullable GraphQL arguments are
passed to the service unchanged (no defaulting happens on the pet side). -/
def AnimalResolver.findAllAnimals (table : List Animal) (start limit : Option Nat)
    (species : Option String) : Except AppError (List Animal × Nat) :=
  AnimalService.findAll table start limit species

/-- `PersonService.findAll(start, limit)`: paged rows plus the count
before pagination, via `skip`/`take` and `getManyAndCount`. -/
def PersonService.findAll (table : List PersonWithAnimals) (start limit : Nat) :
    Except AppError (List PersonWithAnimals × Nat) :=
  .ok ((table.drop start).take limit, table.length)

/-- `PersonResolver.paginatedPersons`: the resolver applies the defaults
`start ?? 0` and `limit ?? 12` before calling the service. -/
def PersonResolver.paginatedPersons (table : List PersonWithAnimals)
    (start limit : Option Nat) : Except AppError (List PersonWithAnimals × Nat) :=
  PersonService.findAll table (start.getD 0) (limit.getD 12)

/-- `AnimalService.findOldest`: empty table gives `[]`; otherwise the
reduce computes the least `dateOfBirth` (the initial accumulator is the
first animal's date) and the filter keeps the animals at that date
(`toISOString()` equality is equality of the epoch value). -/
def AnimalService.findOldest (animals : List Animal) : List Animal :=
  match animals with
  | [] => []
  | a0 :: _ =>
    let oldestDate := animals.foldl
      (fun m a => if a.dateOfBirth < m then a.dateOfBirth else m) a0.dateOfBirth
    animals.filter (fun a => decide (a.dateOfBirth = oldestDate))

/-- One step of building the `speciesCount` record:
`speciesCount[s] = (speciesCount[s] || 0) + 1` increments an existing key
in place and appends a missing key at the end (object insertion order). -/
def bumpCount (counts : List (String × Nat)) (s : String) : List (String × Nat) :=
  match counts with
  | [] => [(s, 1)]
  | (t, c) :: rest => if t = s then (t, c + 1) :: rest else (t, c) :: bumpCount rest s

/-- The `speciesCount` record of `findMostCommonSpecies` as its
`Object.entries` list, keys in insertion order. -/
def speciesCounts (animals : List Animal) : List (String × Nat) :=
  animals.foldl (fun acc a => bumpCount acc a.species) []

/-- Stable insertion of one entry into a list sorted by decreasing count,
modelling one step of `sort((a, b) => b[1] - a[1])` (JavaScript sort is
stable and sorts here by decreasing second component). -/
def insertByCountDesc (p : String × Nat) : List (String × Nat) → List (String × Nat)
  | [] => [p]
  | q :: rest => if q.2 < p.2 then p :: q :: rest else q :: insertByCountDesc p rest

/-- The entry list sorted by decreasing count (stable). -/
def sortByCountDesc : List (String × Nat) → List (String × Nat)
  | [] => []
  | p :: rest => insertByCountDesc p (sortByCountDesc rest)

/-- `MostCommonSpecies` model: species, count and the enrichment field
added by the service's `Promise.all` map. -/
structure MostCommonSpecies where
  species : String
  count : Nat
  specieTranslated : String
deriving DecidableEq

/-- `AnimalService.findMostCommonSpecies`: `null` on an empty table;
otherwise group case-sensitively, sort the entries by decreasing count,
take `sorted[0][1]` as the top count, keep the entries at that count and
enrich each with a translation of its species name. -/
def AnimalService.findMostCommonSpecies (oracle : TrOracle) (animals : List Animal) :
    Option (List MostCommonSpecies) :=
  match animals with
  | [] => none
  | _ :: _ =>
    let sorted := sortByCountDesc (speciesCounts animals)
    match sorted with
    | [] => none
    | top :: _ =>
      some ((sorted.filter (fun p => decide (p.2 = top.2))).map
        (fun p =>
          { species := p.1, count := p.2
            specieTranslated := TranslationHelper.translate oracle p.1 }))

/-- `AnimalService.findHeaviestAnimal`: `null` on an empty table;
otherwise `Math.max` over the weights, then the animals at that weight
mapped to the `HeaviestAnimal` shape with the owner's composed full name. -/
def AnimalService.findHeaviestAnimal (animals : List Animal) :
    Option (List HeaviestAnimal) :=
  match animals with
  | [] => none
  | _ :: _ =>
    let maxWeight := jsMax (animals.map Animal.weight)
    some ((animals.filter (fun a => decide (some a.weight = maxWeight))).map
      (fun a =>
        { animalId := a.id, name := a.name, species := a.species, weight := a.weight
          ownerFullName := a.owner.firstName ++ " " ++ a.owner.lastName
          ownerId := a.owner.id }))

/-- The record returned by `findOneWithOwner`: the animal spread together
with the three translated fields. -/
structure TranslatedAnimal where
  id : Nat
  name : String
  dateOfBirth : Nat
  species : String
  breed : String
  color : String
  weight : Nat
  owner : Person
  breedTranslated : String
  colorTranslated : String
  specieTranslated : String
deriving DecidableEq

/-- `AnimalService.findOneWithOwner`: not-found when the id does not
exist; otherwise the animal with `breed`, lowercased `color` and `species`
each passed through `TranslationHelper.translate` (target language fixed
by the helper's defaults). -/
def AnimalService.findOneWithOwner (oracle : TrOracle) (db : DB) (id : Nat) :
    Except AppError TranslatedAnimal :=
  match db.animals.find? (fun a => a.id == id) with
  | none => .error .notFound
  | some a =>
    .ok { id := a.id, name := a.name, dateOfBirth := a.dateOfBirth
          species := a.species, breed := a.breed, color := a.color
          weight := a.weight, owner := a.owner
          breedTranslated := TranslationHelper.translate oracle a.breed
          colorTranslated := TranslationHelper.translate oracle (jsToLower a.color)
          specieTranslated := TranslationHelper.translate oracle a.species }

/-- `AnimalService.create`: the owner existence check happens before any
write; on not-found nothing is persisted (the store is returned
unchanged); on success the new row is inserted with a fresh id. -/
def AnimalService.create (db : DB) (data : CreateAnimalInput) :
    Except AppError Animal × DB :=
  match db.persons.find? (fun p => p.id == data.ownerId) with
  | none => (.error .notFound, db)
  | some owner =>
    let animal : Animal :=
      { id := db.nextAnimalId, name := data.name, dateOfBirth := data.dateOfBirth
        species := data.species, breed := data.breed, color := data.color
        weight := data.weight, owner := owner }
    (.ok animal,
     { db with animals := db.animals ++ [animal], nextAnimalId := db.nextAnimalId + 1 })

/-- `repository.save` on a fetched animal row: the row with the same
primary key is replaced. -/
def saveAnimal (db : DB) (a : Animal) : DB :=
  { db with animals := db.animals.map (fun b => if b.id == a.id then a else b) }

/-- `AnimalService.update`: fetch the animal (not-found when absent);
`if (data.ownerId)` is a truthiness test, so the owner existence check
runs only for a provided, non-zero `ownerId` — `0` behaves like an absent
field; then `Object.assign(animal, data)` merges the provided fields and
the row is saved. On any thrown not-found the store is untouched. -/
def AnimalService.update (db : DB) (id : Nat) (data : UpdateAnimalInput) :
    Except AppError Animal × DB :=
  match db.animals.find? (fun a => a.id == id) with
  | none => (.error .notFound, db)
  | some animal =>
    let ownerStep : Except AppError Person :=
      match data.ownerId with
      | some oid =>
        if oid ≠ 0 then
          match db.persons.find? (fun p => p.id == oid) with
          | none => .error .notFound
          | some owner => .ok owner
        else .ok animal.owner
      | none => .ok animal.owner
    match ownerStep with
    | .error e => (.error e, db)
    | .ok owner =>
      let updated : Animal :=
        { id := animal.id
          name := data.name.getD animal.name
          dateOfBirth := data.dateOfBirth.getD animal.dateOfBirth
          species := data.species.getD animal.species
          breed := data.breed.getD animal.breed
          color := data.color.getD animal.color
          weight := data.weight.getD animal.weight
          owner := owner }
      (.ok updated, saveAnimal db updated)

/-- `Object.assign(person, data)` with an `UpdatePersonInput`: provided
fields overwrite, absent fields are kept. -/
def applyPersonUpdate (p : Person) (data : UpdatePersonInput) : Person :=
  { id := p.id
    lastName := data.lastName.getD p.lastName
    firstName := data.firstName.getD p.firstName
    email := data.email.getD p.email
    phoneNumber := data.phoneNumber.getD p.phoneNumber }

/-- `repository.save` on a fetched person row. -/
def savePerson (db : DB) (p : Person) : DB :=
  { db with persons := db.persons.map (fun q => if q.id == p.id then p else q) }

/-- The try block of `PersonService.update`: lookup (throwing not-found
when the id is absent), `Object.assign`, save. -/
def PersonService.updateTry (db : DB) (id : Nat) (data : UpdatePersonInput) :
    Except AppError Person × DB :=
  match db.persons.find? (fun p => p.id == id) with
  | none => (.error .notFound, db)
  | some person =>
    let updated := applyPersonUpdate person data
    (.ok updated, savePerson db updated)

/-- `PersonService.update`: unlike every other method of the two services,
its catch block does not re-throw `NotFoundException`, so every failure of
the try block — the not-found case included — is re-surfaced as a generic
internal failure. -/
def PersonService.update (db : DB) (id : Nat) (data : UpdatePersonInput) :
    Except AppError Person × DB :=
  match PersonService.updateTry db id data with
  | (.error _, db') => (.error .internal, db')
  | (.ok p, db') => (.ok p, db')

/-- The `ownersWithCount` array of `PersonService.findTopOwners`. -/
def ownersWithCount (persons : List PersonWithAnimals) : List TopOwner :=
  persons.map (fun p =>
    { ownerId := p.id, fullName := p.firstName ++ " " ++ p.lastName
      count := p.animals.length })

/-- `PersonService.findTopOwners`: `[]` on an empty table; otherwise all
owners whose direct pet count equals the `Math.max` of the counts. -/
def PersonService.findTopOwners (persons : List PersonWithAnimals) : List TopOwner :=
  match persons with
  | [] => []
  | _ :: _ =>
    let owners := ownersWithCount persons
    let maxCount := jsMax (owners.map TopOwner.count)
    owners.filter (fun o => decide (some o.count = maxCount))

/-- The per-owner count of animals of a given (already lowercased)
species, compared case-insensitively. -/
def countOfSpecies (p : PersonWithAnimals) (speciesLower : String) : Nat :=
  (p.animals.filter (fun a => decide (jsToLower a.species = speciesLower))).length

/-- `PersonService.findTopOwnersBySpecies`: a bad-request failure for a
falsy or blank species; otherwise each owner is paired with its
case-insensitive matching count, and the owners kept are those at the
`Math.max` of the counts whose count is moreover strictly positive. -/
def PersonService.findTopOwnersBySpecies (persons : List PersonWithAnimals)
    (species : String) : Except AppError (List TopOwner) :=
  if species = "" ∨ jsTrim species = "" then .error .badRequest
  else
    let speciesLower := jsToLower species
    let owners := persons.map (fun p =>
      { ownerId := p.id, fullName := p.firstName ++ " " ++ p.lastName
        count := countOfSpecies p speciesLower : TopOwner })
    let maxCount := jsMax (owners.map TopOwner.count)
    .ok (owners.filter (fun o => decide (some o.count = maxCount) && decide (0 < o.count)))

/-- `PersonService.findHeaviestGroups`: each owner with the summed weight
of its animals (`reduce(..., 0)`), keeping the owners at the `Math.max`
of the totals; no empty-table guard exists in this method. -/
def PersonService.findHeaviestGroups (persons : List PersonWithAnimals) :
    List HeaviestGroup :=
  let owners := persons.map (fun p =>
    { ownerId := p.id, fullName := p.firstName ++ " " ++ p.lastName
      totalWeight := p.animals.foldl (fun sum a => sum + a.weight) 0 : HeaviestGroup })
  let maxWeight := jsMax (owners.map HeaviestGroup.totalWeight)
  owners.filter (fun o => decide (some o.totalWeight = maxWeight))

theorem jsMax_go (xs : List Nat) (v : Nat) :
    xs.foldl (fun m n => match m with | none => some n | some w => some (Nat.max w n))
        (some v) = some (xs.foldl Nat.max v) := by
  induction xs generalizing v with
  | nil => rfl
  | cons x xs ih => simpa using ih (Nat.max v x)

theorem jsMax_cons (x : Nat) (xs : List Nat) :
    jsMax (x :: xs) = some (xs.foldl Nat.max x) := by
  simpa [jsMax] using jsMax_go xs x

theorem le_foldl_max_init (xs : List Nat) (v : Nat) : v ≤ xs.foldl Nat.max v := by
  induction xs generalizing v with
  | nil => simp
  | cons x xs ih => exact le_trans (Nat.le_max_left v x) (by simpa using ih (Nat.max v x))

theorem mem_le_foldl_max (xs : List Nat) (v : Nat) : ∀ x ∈ xs, x ≤ xs.foldl Nat.max v := by
  induction xs generalizing v with
  | nil => simp
  | cons y ys ih =>
    intro x hx
    rcases List.mem_cons.mp hx with h | h
    · subst h
      exact le_trans (Nat.le_max_right v x) (by simpa using le_foldl_max_init ys (Nat.max v x))
    · simpa using ih (Nat.max v y) x h

theorem foldl_max_mem (xs : List Nat) (v : Nat) :
    xs.foldl Nat.max v = v ∨ xs.foldl Nat.max v ∈ xs := by
  induction xs generalizing v with
  | nil => exact Or.inl rfl
  | cons x xs ih =>
    simp only [List.foldl_cons]
    rcases ih (Nat.max v x) with h | h
    · rcases Nat.le_total v x with hvx | hxv
      · right
        rw [h, show Nat.max v x = x from Nat.max_eq_right hvx]
        exact List.mem_cons_self _ _
      · left
        rw [h, show Nat.max v x = v from Nat.max_eq_left hxv]
    · right
      exact List.mem_cons_of_mem _ h

theorem jsMax_spec (xs : List Nat) (h : xs ≠ []) :
    ∃ v, jsMax xs = some v ∧ v ∈ xs ∧ ∀ x ∈ xs, x ≤ v := by
  match xs, h with
  | x :: xs, _ =>
    refine ⟨xs.foldl Nat.max x, jsMax_cons x xs, ?_, ?_⟩
    · rcases foldl_max_mem xs x with h | h
      · rw [h]
        exact List.mem_cons_self _ _
      · exact List.mem_cons_of_mem _ h
    · intro y hy
      rcases List.mem_cons.mp hy with h | h
      · exact h ▸ le_foldl_max_init xs x
      · exact mem_le_foldl_max xs x y h

theorem jsMax_eq_some_iff {α : Type} (l : List α) (f : α → Nat) (x : α) (hx : x ∈ l) :
    some (f x) = jsMax (l.map f) ↔ ∀ y ∈ l, f y ≤ f x := by
  have hne : l.map f ≠ [] := by
    simp only [ne_eq, List.map_eq_nil_iff]
    exact List.ne_nil_of_mem hx
  obtain ⟨v, hv, hvm, hvmax⟩ := jsMax_spec _ hne
  rw [hv]
  constructor
  · intro h
    have hfx : f x = v := Option.some.inj h
    intro y hy
    exact hfx ▸ hvmax (f y) (List.mem_map_of_mem f hy)
  · intro hall
    obtain ⟨y0, hy0, hfy0⟩ := List.mem_map.mp hvm
    have h1 : v ≤ f x := hfy0 ▸ hall y0 hy0
    have h2 : f x ≤ v := hvmax _ (List.mem_map_of_mem f hx)
    exact congrArg some (le_antisymm h2 h1)

theorem mem_filter_jsMax {α : Type} (l : List α) (f : α → Nat) (x : α) :
    x ∈ l.filter (fun o => decide (some (f o) = jsMax (l.map f))) ↔
      x ∈ l ∧ ∀ y ∈ l, f y ≤ f x := by
  rw [List.mem_filter]
  simp only [decide_eq_true_eq]
  constructor
  · rintro ⟨hx, hmax⟩
    exact ⟨hx, (jsMax_eq_some_iff l f x hx).mp hmax⟩
  · rintro ⟨hx, hall⟩
    exact ⟨hx, (jsMax_eq_some_iff l f x hx).mpr hall⟩

theorem mem_filter_jsMax_pos {α : Type} (l : List α) (f : α → Nat) (x : α) :
    x ∈ l.filter
        (fun o => decide (some (f o) = jsMax (l.map f)) && decide (0 < f o)) ↔
      x ∈ l ∧ 0 < f x ∧ ∀ y ∈ l, f y ≤ f x := by
  rw [List.mem_filter]
  simp only [Bool.and_eq_true, decide_eq_true_eq]
  constructor
  · rintro ⟨hx, hmax, hpos⟩
    exact ⟨hx, hpos, (jsMax_eq_some_iff l f x hx).mp hmax⟩
  · rintro ⟨hx, hpos, hall⟩
    exact ⟨hx, (jsMax_eq_some_iff l f x hx).mpr hall, hpos⟩

theorem dob_foldl_le_init (l : List Animal) (v : Nat) :
    l.foldl (fun m a => if a.dateOfBirth < m then a.dateOfBirth else m) v ≤ v := by
  induction l generalizing v with
  | nil => simp
  | cons a l ih =>
    simp only [List.foldl_cons]
    refine le_trans (ih _) ?_
    split <;> omega

theorem dob_foldl_le_mem (l : List Animal) (v : Nat) :
    ∀ a ∈ l, l.foldl (fun m a => if a.dateOfBirth < m then a.dateOfBirth else m) v
      ≤ a.dateOfBirth := by
  induction l generalizing v with
  | nil => simp
  | cons b l ih =>
    intro a ha
    rcases List.mem_cons.mp ha with h | h
    · subst h
      simp only [List.foldl_cons]
      refine le_trans (dob_foldl_le_init l _) ?_
      split <;> omega
    · exact ih _ a h

theorem dob_foldl_mem (l : List Animal) (v : Nat) :
    l.foldl (fun m a => if a.dateOfBirth < m then a.dateOfBirth else m) v = v ∨
      ∃ a ∈ l, l.foldl (fun m a => if a.dateOfBirth < m then a.dateOfBirth else m) v
        = a.dateOfBirth := by
  induction l generalizing v with
  | nil => exact Or.inl rfl
  | cons b l ih =>
    simp only [List.foldl_cons]
    rcases ih (if b.dateOfBirth < v then b.dateOfBirth else v) with h | h
    · by_cases hb : b.dateOfBirth < v
      · right
        exact ⟨b, List.mem_cons_self _ _, by simpa [hb] using h⟩
      · left
        simpa [hb] using h
    · right
      obtain ⟨a, ha, hav⟩ := h
      exact ⟨a, List.mem_cons_of_mem _ ha, hav⟩

/-- C2: the oldest-pets operation returns exactly the pets whose date of
birth equals the minimum date of birth over the list (all ties included,
nothing else), and the empty list gives the empty list. -/
theorem C2_oldest_pets (l : List Animal) :
    AnimalService.findOldest l =
      l.filter (fun a => l.all (fun b => decide (a.dateOfBirth ≤ b.dateOfBirth))) := by
  cases l with
  | nil => rfl
  | cons a0 rest =>
    show (a0 :: rest).filter
        (fun a => decide (a.dateOfBirth =
          (a0 :: rest).foldl (fun m a => if a.dateOfBirth < m then a.dateOfBirth else m)
            a0.dateOfBirth)) = _
    apply List.filter_congr
    intro a ha
    set L := a0 :: rest with hL
    set m := L.foldl (fun m a => if a.dateOfBirth < m then a.dateOfBirth else m)
      a0.dateOfBirth with hm
    have hle : ∀ b ∈ L, m ≤ b.dateOfBirth := dob_foldl_le_mem L a0.dateOfBirth
    have hmem : ∃ b ∈ L, m = b.dateOfBirth := by
      rcases dob_foldl_mem L a0.dateOfBirth with h | h
      · exact ⟨a0, List.mem_cons_self _ _, h⟩
      · exact h
    obtain ⟨b0, hb0, hmb⟩ := hmem
    by_cases h : a.dateOfBirth = m
    · have hall : L.all (fun b => decide (a.dateOfBirth ≤ b.dateOfBirth)) = true := by
        rw [List.all_eq_true]
        intro b hb
        simpa using h ▸ hle b hb
      rw [hall, decide_eq_true h]
    · have hall : L.all (fun b => decide (a.dateOfBirth ≤ b.dateOfBirth)) = false := by
        rw [List.all_eq_false]
        refine ⟨b0, hb0, ?_⟩
        simp only [decide_eq_true_eq]
        intro hab
        exact h (le_antisymm (hmb ▸ hab) (hle a ha))
      rw [hall, decide_eq_false h]

/-- C3: for a non-empty table the heaviest-pets operation returns exactly
the pets whose weight equals the maximum weight, each carrying the owner's
id and the full name composed as firstName, a space, lastName; the empty
table gives the `null` sentinel. -/
theorem C3_heaviest_pets (l : List Animal) :
    (l ≠ [] → ∃ r, AnimalService.findHeaviestAnimal l = some r ∧
      ∀ e, e ∈ r ↔ ∃ a, a ∈ l ∧ (∀ b ∈ l, b.weight ≤ a.weight) ∧
        e = { animalId := a.id, name := a.name, species := a.species, weight := a.weight,
              ownerFullName := a.owner.firstName ++ " " ++ a.owner.lastName,
              ownerId := a.owner.id }) ∧
    AnimalService.findHeaviestAnimal [] = none := by
  refine ⟨?_, rfl⟩
  intro hl
  match l, hl with
  | a0 :: rest, _ =>
    refine ⟨_, rfl, ?_⟩
    intro e
    rw [List.mem_map]
    constructor
    · rintro ⟨a, haf, hae⟩
      rw [mem_filter_jsMax (a0 :: rest) Animal.weight a] at haf
      exact ⟨a, haf.1, haf.2, hae.symm⟩
    · rintro ⟨a, hal, hmax, hea⟩
      refine ⟨a, ?_, hea.symm⟩
      rw [mem_filter_jsMax (a0 :: rest) Animal.weight a]
      exact ⟨hal, hmax⟩

theorem mem_map_filter_jsMax {α β : Type} (l : List α) (g : α → β) (f : β → Nat) (x : β) :
    x ∈ (l.map g).filter (fun o => decide (some (f o) = jsMax ((l.map g).map f))) ↔
      ∃ p, p ∈ l ∧ x = g p ∧ ∀ q ∈ l, f (g q) ≤ f (g p) := by
  rw [mem_filter_jsMax]
  constructor
  · rintro ⟨hx, hall⟩
    obtain ⟨p, hp, hgp⟩ := List.mem_map.mp hx
    refine ⟨p, hp, hgp.symm, fun q hq => ?_⟩
    rw [hgp]
    exact hall (g q) (List.mem_map_of_mem g hq)
  · rintro ⟨p, hp, hx, hall⟩
    subst hx
    refine ⟨List.mem_map_of_mem g hp, fun y hy => ?_⟩
    obtain ⟨q, hq, hgq⟩ := List.mem_map.mp hy
    rw [← hgq]
    exact hall q hq

theorem mem_map_filter_jsMax_pos {α β : Type} (l : List α) (g : α → β) (f : β → Nat)
    (x : β) :
    x ∈ (l.map g).filter
        (fun o => decide (some (f o) = jsMax ((l.map g).map f)) && decide (0 < f o)) ↔
      ∃ p, p ∈ l ∧ x = g p ∧ 0 < f (g p) ∧ ∀ q ∈ l, f (g q) ≤ f (g p) := by
  rw [mem_filter_jsMax_pos]
  constructor
  · rintro ⟨hx, hpos, hall⟩
    obtain ⟨p, hp, hgp⟩ := List.mem_map.mp hx
    refine ⟨p, hp, hgp.symm, hgp ▸ hpos, fun q hq => ?_⟩
    rw [hgp]
    exact hall (g q) (List.mem_map_of_mem g hq)
  · rintro ⟨p, hp, hx, hpos, hall⟩
    subst hx
    refine ⟨List.mem_map_of_mem g hp, hpos, fun y hy => ?_⟩
    obtain ⟨q, hq, hgq⟩ := List.mem_map.mp hy
    rw [← hgq]
    exact hall q hq

/-- C6: the top-owners-by-count operation returns exactly the owners whose
direct pet count is maximal (full name composed, count attached), and
owners with zero pets take part in the tie: when every owner has zero
pets, every owner is returned. -/
theorem C6_top_owners_by_count (persons : List PersonWithAnimals) :
    (∀ o, o ∈ PersonService.findTopOwners persons ↔
      ∃ p, p ∈ persons ∧
        o = { ownerId := p.id, fullName := p.firstName ++ " " ++ p.lastName,
              count := p.animals.length } ∧
        ∀ q ∈ persons, q.animals.length ≤ p.animals.length) ∧
    ((∀ p ∈ persons, p.animals.length = 0) →
      PersonService.findTopOwners persons = ownersWithCount persons) := by
  constructor
  · intro o
    cases persons with
    | nil => simp [PersonService.findTopOwners]
    | cons p0 ps =>
      simp only [PersonService.findTopOwners, ownersWithCount]
      rw [mem_map_filter_jsMax (p0 :: ps)
        (fun p => ({ ownerId := p.id, fullName := p.firstName ++ " " ++ p.lastName,
                     count := p.animals.length } : TopOwner)) TopOwner.count o]
  · intro hz
    cases persons with
    | nil => rfl
    | cons p0 ps =>
      simp only [PersonService.findTopOwners]
      rw [List.filter_eq_self]
      intro o ho
      obtain ⟨p, hp, hgp⟩ := List.mem_map.mp ho
      have hcnt : o.count = 0 := by
        rw [← hgp]
        exact hz p hp
      have hne : (ownersWithCount (p0 :: ps)).map TopOwner.count ≠ [] := by
        simp [ownersWithCount]
      obtain ⟨v, hv, hvm, _⟩ := jsMax_spec _ hne
      have hv0 : v = 0 := by
        obtain ⟨o', ho', hvo⟩ := List.mem_map.mp hvm
        obtain ⟨q, hq, hgq⟩ := List.mem_map.mp ho'
        rw [← hvo, ← hgq]
        exact hz q hq
      rw [hv, hv0, hcnt]
      simp

/-- C5: with a non-blank species, the top-owners-by-species operation
counts per owner only the case-insensitive species matches, returns
exactly the owners whose count is maximal and strictly positive, and thus
returns the empty list when the species occurs in no pet. -/
theorem C5_top_owners_by_species (persons : List PersonWithAnimals) (species : String)
    (h1 : species ≠ "") (h2 : jsTrim species ≠ "") :
    ∃ r, PersonService.findTopOwnersBySpecies persons species = .ok r ∧
      (∀ o, o ∈ r ↔ ∃ p, p ∈ persons ∧
        o = { ownerId := p.id, fullName := p.firstName ++ " " ++ p.lastName,
              count := countOfSpecies p (jsToLower species) } ∧
        0 < countOfSpecies p (jsToLower species) ∧
        ∀ q ∈ persons,
          countOfSpecies q (jsToLower species) ≤ countOfSpecies p (jsToLower species)) ∧
      ((∀ p ∈ persons, countOfSpecies p (jsToLower species) = 0) → r = []) := by
  have hcond : ¬(species = "" ∨ jsTrim species = "") := not_or.mpr ⟨h1, h2⟩
  simp only [PersonService.findTopOwnersBySpecies, if_neg hcond]
  refine ⟨_, rfl, ?_, ?_⟩
  · intro o
    rw [mem_map_filter_jsMax_pos persons
      (fun p => ({ ownerId := p.id, fullName := p.firstName ++ " " ++ p.lastName,
                   count := countOfSpecies p (jsToLower species) } : TopOwner))
      TopOwner.count o]
  · intro hz
    rw [List.filter_eq_nil_iff]
    intro o ho
    obtain ⟨p, hp, hgp⟩ := List.mem_map.mp ho
    have hcnt : o.count = 0 := by
      rw [← hgp]
      exact hz p hp
    simp [hcnt]

/-- C10: on the empty owner table, top-owners-by-species (with a non-blank
species) returns the empty list without failing, and heaviest-owner-groups
returns the empty list as well, even though the maximum is taken over an
empty collection. -/
theorem C10_empty_owner_aggregates (species : String)
    (h1 : species ≠ "") (h2 : jsTrim species ≠ "") :
    PersonService.findTopOwnersBySpecies [] species = .ok [] ∧
    PersonService.findHeaviestGroups [] = [] := by
  have hcond : ¬(species = "" ∨ jsTrim species = "") := not_or.mpr ⟨h1, h2⟩
  exact ⟨by simp [PersonService.findTopOwnersBySpecies, if_neg hcond], rfl⟩

theorem translate_fail (oracle : TrOracle) (t : String)
    (h : oracle t "fr" "en" = .fail) : TranslationHelper.translate oracle t = t := by
  by_cases ht : t = ""
  · simp [TranslationHelper.translate, ht]
  · simp [TranslationHelper.translate, ht, h]

/-- C9: fetching a pet with its owner passes breed (as stored), color
(lowercased first) and species (as stored) through the translation helper
at the fixed target language, and a failed translation call for a field
never fails the request — that field falls back to the text that was
submitted for translation. -/
theorem C9_translation_enrichment (oracle : TrOracle) (db : DB) (id : Nat) (a : Animal)
    (h : db.animals.find? (fun b => b.id == id) = some a) :
    ∃ r, AnimalService.findOneWithOwner oracle db id = .ok r ∧
      r.breedTranslated = TranslationHelper.translate oracle a.breed ∧
      r.colorTranslated = TranslationHelper.translate oracle (jsToLower a.color) ∧
      r.specieTranslated = TranslationHelper.translate oracle a.species ∧
      (oracle a.breed "fr" "en" = .fail → r.breedTranslated = a.breed) ∧
      (oracle (jsToLower a.color) "fr" "en" = .fail →
        r.colorTranslated = jsToLower a.color) ∧
      (oracle a.species "fr" "en" = .fail → r.specieTranslated = a.species) := by
  refine ⟨{ id := a.id, name := a.name, dateOfBirth := a.dateOfBirth
            species := a.species, breed := a.breed, color := a.color
            weight := a.weight, owner := a.owner
            breedTranslated := TranslationHelper.translate oracle a.breed
            colorTranslated := TranslationHelper.translate oracle (jsToLower a.color)
            specieTranslated := TranslationHelper.translate oracle a.species },
          ?_, rfl, rfl, rfl, ?_, ?_, ?_⟩
  · unfold AnimalService.findOneWithOwner
    rw [h]
  · exact fun hf => translate_fail oracle a.breed hf
  · exact fun hf => translate_fail oracle (jsToLower a.color) hf
  · exact fun hf => translate_fail oracle a.species hf

/-- C8: evaluating `PersonService.update` on a store in which the person
does not exist. The try block throws not-found, but the catch block of
this one method converts it into the generic internal failure (its own doc
comment promises `NotFoundException`), leaving the store untouched. -/
theorem C8_update_notfound_becomes_internal :
    (PersonService.updateTry { persons := [], animals := [], nextAnimalId := 1 } 1 {}).1
        = .error .notFound ∧
    (PersonService.update { persons := [], animals := [], nextAnimalId := 1 } 1 {}).1
        = .error .internal ∧
    (PersonService.update { persons := [], animals := [], nextAnimalId := 1 } 1 {}).2
        = { persons := [], animals := [], nextAnimalId := 1 } :=
  ⟨rfl, rfl, rfl⟩

theorem find?_save_replace (l : List Animal) (i : Nat) (a2 : Animal)
    (hid : a2.id = i) (h : ∃ b ∈ l, (b.id == i) = true) :
    (l.map (fun b => if b.id == a2.id then a2 else b)).find? (fun b => b.id == i)
      = some a2 := by
  induction l with
  | nil =>
    obtain ⟨b, hb, _⟩ := h
    exact absurd hb (List.not_mem_nil b)
  | cons c l ih =>
    obtain ⟨b, hb, hbi⟩ := h
    by_cases hc : (c.id == i) = true
    · have hca : (c.id == a2.id) = true := by rw [hid]; exact hc
      simp only [List.map_cons, if_pos hca]
      have ha2 : (a2.id == i) = true := by rw [hid]; exact beq_self_eq_true i
      simp [List.find?, ha2]
    · have hca : ¬(c.id == a2.id) = true := by rw [hid]; exact hc
      simp only [List.map_cons, if_neg hca]
      rcases List.mem_cons.mp hb with hbc | hbl
      · exact absurd (hbc ▸ hbi) hc
      · have : (l.map (fun b => if b.id == a2.id then a2 else b)).find?
            (fun b => b.id == i) = some a2 := ih ⟨b, hbl, hbi⟩
        simpa [List.find?, hc] using this

/-- C7 (amended): creating a pet with a non-existent owner id fails with
not-found and persists nothing; updating an existing pet's ownerId to a
non-existent non-zero owner id fails with not-found and leaves the store
unchanged; updating it to an existing non-zero owner id succeeds and the
stored pet now carries that owner. (An ownerId of 0 is falsy and skips the
existence check; see the counterexample.) -/
theorem C7_referential_integrity (db : DB) (cdata : CreateAnimalInput)
    (id oid : Nat) (udata : UpdateAnimalInput) (a : Animal) :
    (db.persons.find? (fun p => p.id == cdata.ownerId) = none →
      AnimalService.create db cdata = (.error .notFound, db)) ∧
    (db.animals.find? (fun b => b.id == id) = some a → udata.ownerId = some oid →
      oid ≠ 0 →
      (db.persons.find? (fun p => p.id == oid) = none →
        AnimalService.update db id udata = (.error .notFound, db)) ∧
      (∀ owner, db.persons.find? (fun p => p.id == oid) = some owner →
        ∃ a2, (AnimalService.update db id udata).1 = .ok a2 ∧ a2.owner = owner ∧
          ((AnimalService.update db id udata).2).animals.find? (fun b => b.id == id)
            = some a2)) := by
  constructor
  · intro h
    unfold AnimalService.create
    rw [h]
  · intro ha hoid hz
    constructor
    · intro hnone
      simp only [AnimalService.update, ha, hoid]
      rw [if_pos hz, hnone]
    · intro owner howner
      have hbeq : (a.id == id) = true := by simpa using List.find?_some ha
      have haid : a.id = id := eq_of_beq hbeq
      have hstep : AnimalService.update db id udata =
          (.ok { id := a.id
                 name := udata.name.getD a.name
                 dateOfBirth := udata.dateOfBirth.getD a.dateOfBirth
                 species := udata.species.getD a.species
                 breed := udata.breed.getD a.breed
                 color := udata.color.getD a.color
                 weight := udata.weight.getD a.weight
                 owner := owner },
           saveAnimal db
             { id := a.id
               name := udata.name.getD a.name
               dateOfBirth := udata.dateOfBirth.getD a.dateOfBirth
               species := udata.species.getD a.species
               breed := udata.breed.getD a.breed
               color := udata.color.getD a.color
               weight := udata.weight.getD a.weight
               owner := owner }) := by
        simp only [AnimalService.update, ha, hoid]
        rw [if_pos hz, howner]
      refine ⟨_, by rw [hstep], rfl, ?_⟩
      rw [hstep]
      show (saveAnimal db _).animals.find? _ = _
      unfold saveAnimal
      exact find?_save_replace db.animals id _ haid
        ⟨a, List.mem_of_find?_eq_some ha, hbeq⟩

/-- The matching rows of the pets list contract, written from the spec: a
case-insensitive exact-match species filter over the full table. -/
def speciesMatches (table : List Animal) (sp : String) : List Animal :=
  table.filter (fun a => decide (jsToLower a.species = jsToLower sp))

/-- C1 (amended): the owner list query defaults start to 0 and limit to 12
in its resolver and its totalCount is the table size whatever page is
requested; the pet list query, given explicit start/limit and a non-empty
species, filters case-insensitively before counting and before paging,
returning the page of the matching rows and their full count; with 15
matching pets and start 10, limit 12, exactly 5 pets are returned and
totalCount is 15. -/
theorem C1_pagination_contract (ptable : List PersonWithAnimals) (table : List Animal)
    (start limit : Nat) (sp : String) (hsp : sp ≠ "")
    (h15 : (speciesMatches table sp).length = 15) :
    (PersonResolver.paginatedPersons ptable none none = PersonService.findAll ptable 0 12) ∧
    (∀ s t, ∃ page, PersonService.findAll ptable s t = .ok (page, ptable.length)) ∧
    (AnimalService.findAll table (some start) (some limit) (some sp) =
      .ok (((speciesMatches table sp).drop start).take limit,
           (speciesMatches table sp).length)) ∧
    (∃ page, AnimalService.findAll table (some 10) (some 12) (some sp) = .ok (page, 15) ∧
      page.length = 5) := by
  have hq : ∀ s t : Nat, AnimalService.findAll table (some s) (some t) (some sp) =
      .ok (((speciesMatches table sp).drop s).take t, (speciesMatches table sp).length) := by
    intro s t
    simp only [AnimalService.findAll, AnimalService.findAllQuery, runAnimalQuery,
      matchingAnimals, jsNumber, if_neg hsp, speciesMatches]
  refine ⟨rfl, fun s t => ⟨_, rfl⟩, hq start limit, ?_⟩
  refine ⟨((speciesMatches table sp).drop 10).take 12, ?_, ?_⟩
  · rw [hq 10 12, h15]
  · rw [List.length_take, List.length_drop, h15]
    decide

/-- C1 counterexample: with both pagination arguments omitted, the query
built for the pets list carries NaN as its skip and take values — not the
claimed defaults of 0 and 12 (no defaulting exists on the pet side). -/
theorem C1_counterexample :
    (AnimalService.findAllQuery none none none).skipVal ≠ JsNum.num 0 ∧
    (AnimalService.findAllQuery none none none).takeVal ≠ JsNum.num 12 := by
  constructor <;> decide

/-- Sample owner used to instantiate claims on concrete stores. -/
def ownerJane : Person :=
  { id := 1, lastName := "Doe", firstName := "Jane",
    email := "jane@example.com", phoneNumber := "0600000001" }

/-- Second sample owner. -/
def ownerJohn : Person :=
  { id := 2, lastName := "Smith", firstName := "John",
    email := "john@example.com", phoneNumber := "0600000002" }

/-- Sample pet owned by Jane. -/
def petRex : Animal :=
  { id := 1, name := "Rex", dateOfBirth := 1000, species := "Dog",
    breed := "Labrador", color := "Brown", weight := 30, owner := ownerJane }

/-- Sample pet owned by John. -/
def petMia : Animal :=
  { id := 2, name := "Mia", dateOfBirth := 500, species := "Cat",
    breed := "Siamese", color := "White", weight := 4, owner := ownerJohn }

/-- Sample store with both owners and Jane's pet. -/
def sampleDB : DB :=
  { persons := [ownerJane, ownerJohn], animals := [petRex], nextAnimalId := 2 }

/-- Jane as a row fetched with her animals. -/
def pwaJane : PersonWithAnimals :=
  { id := 1, lastName := "Doe", firstName := "Jane",
    email := "jane@example.com", phoneNumber := "0600000001", animals := [petRex] }

/-- John as a row fetched with his animals. -/
def pwaJohn : PersonWithAnimals :=
  { id := 2, lastName := "Smith", firstName := "John",
    email := "john@example.com", phoneNumber := "0600000002", animals := [petMia] }

/-- An owner row with no animals. -/
def pwaZoe : PersonWithAnimals :=
  { id := 3, lastName := "Lee", firstName := "Zoe",
    email := "zoe@example.com", phoneNumber := "0600000003", animals := [] }

/-- A translation oracle whose every fetch fails. -/
def failingOracle : TrOracle := fun _ _ _ => .fail

/-- C7 counterexample: owner id 0 references no owner of the sample store,
yet updating the pet's ownerId to 0 succeeds with the pet unchanged
(the truthiness test treats 0 like an absent field) instead of failing
with the not-found kind as the claim states. -/
theorem C7_counterexample :
    sampleDB.persons.find? (fun p => p.id == 0) = none ∧
    (AnimalService.update sampleDB 1 { ownerId := some 0 }).1 = .ok petRex ∧
    (AnimalService.update sampleDB 1 { ownerId := some 0 }).1 ≠ .error .notFound := by
  refine ⟨rfl, rfl, ?_⟩
  intro h
  rw [show (AnimalService.update sampleDB 1 { ownerId := some 0 }).1 = .ok petRex
    from rfl] at h
  exact Except.noConfusion h

/-- C1 witness table: fifteen pets, all matching the species filter. -/
def table15 : List Animal := List.replicate 15 petRex

theorem C1_pagination_contract_witness :
    (("Dog" : String) ≠ "" ∧ (speciesMatches table15 "Dog").length = 15) ∧
    ((PersonResolver.paginatedPersons [pwaJane] none none =
        PersonService.findAll [pwaJane] 0 12) ∧
     (∀ s t, ∃ page, PersonService.findAll [pwaJane] s t = .ok (page, [pwaJane].length)) ∧
     (AnimalService.findAll table15 (some 3) (some 4) (some "Dog") =
       .ok (((speciesMatches table15 "Dog").drop 3).take 4,
            (speciesMatches table15 "Dog").length)) ∧
     (∃ page, AnimalService.findAll table15 (some 10) (some 12) (some "Dog") =
        .ok (page, 15) ∧ page.length = 5)) :=
  ⟨⟨by decide, by decide⟩,
   C1_pagination_contract [pwaJane] table15 3 4 "Dog" (by decide) (by decide)⟩

theorem C3_heaviest_pets_witness :
    ([petRex, petMia] ≠ []) ∧
    (∃ r, AnimalService.findHeaviestAnimal [petRex, petMia] = some r ∧
      ∀ e, e ∈ r ↔ ∃ a, a ∈ [petRex, petMia] ∧
        (∀ b ∈ [petRex, petMia], b.weight ≤ a.weight) ∧
        e = { animalId := a.id, name := a.name, species := a.species, weight := a.weight,
              ownerFullName := a.owner.firstName ++ " " ++ a.owner.lastName,
              ownerId := a.owner.id }) :=
  ⟨by decide, (C3_heaviest_pets [petRex, petMia]).1 (by decide)⟩

theorem C5_top_owners_by_species_witness :
    (("cat" : String) ≠ "" ∧ jsTrim "cat" ≠ "") ∧
    (∃ r, PersonService.findTopOwnersBySpecies [pwaJane, pwaJohn] "cat" = .ok r ∧
      (∀ o, o ∈ r ↔ ∃ p, p ∈ [pwaJane, pwaJohn] ∧
        o = { ownerId := p.id, fullName := p.firstName ++ " " ++ p.lastName,
              count := countOfSpecies p (jsToLower "cat") } ∧
        0 < countOfSpecies p (jsToLower "cat") ∧
        ∀ q ∈ [pwaJane, pwaJohn],
          countOfSpecies q (jsToLower "cat") ≤ countOfSpecies p (jsToLower "cat")) ∧
      ((∀ p ∈ [pwaJane, pwaJohn], countOfSpecies p (jsToLower "cat") = 0) → r = [])) :=
  ⟨⟨by decide, by decide⟩,
   C5_top_owners_by_species [pwaJane, pwaJohn] "cat" (by decide) (by decide)⟩

theorem C6_top_owners_by_count_witness :
    (∀ p ∈ [pwaZoe], p.animals.length = 0) ∧
    PersonService.findTopOwners [pwaZoe] = ownersWithCount [pwaZoe] :=
  ⟨by decide, (C6_top_owners_by_count [pwaZoe]).2 (by decide)⟩

theorem C9_translation_enrichment_witness :
    (sampleDB.animals.find? (fun b => b.id == 1) = some petRex) ∧
    (∃ r, AnimalService.findOneWithOwner failingOracle sampleDB 1 = .ok r ∧
      r.breedTranslated = TranslationHelper.translate failingOracle petRex.breed ∧
      r.colorTranslated = TranslationHelper.translate failingOracle (jsToLower petRex.color) ∧
      r.specieTranslated = TranslationHelper.translate failingOracle petRex.species ∧
      (failingOracle petRex.breed "fr" "en" = .fail →
        r.breedTranslated = petRex.breed) ∧
      (failingOracle (jsToLower petRex.color) "fr" "en" = .fail →
        r.colorTranslated = jsToLower petRex.color) ∧
      (failingOracle petRex.species "fr" "en" = .fail →
        r.specieTranslated = petRex.species)) :=
  ⟨rfl, C9_translation_enrichment failingOracle sampleDB 1 petRex rfl⟩

theorem C10_empty_owner_aggregates_witness :
    (("cat" : String) ≠ "" ∧ jsTrim "cat" ≠ "") ∧
    (PersonService.findTopOwnersBySpecies [] "cat" = .ok [] ∧
     PersonService.findHeaviestGroups [] = []) :=
  ⟨⟨by decide, by decide⟩, C10_empty_owner_aggregates "cat" (by decide) (by decide)⟩

/-- Create input whose ownerId (99) exists in no sample owner. -/
def cdataBad : CreateAnimalInput :=
  { name := "Kiwi", dateOfBirth := 2000, species := "Bird", breed := "Parrot",
    color := "Green", weight := 1, ownerId := 99 }

/-- Update input moving a pet to owner 2. -/
def udataMove : UpdateAnimalInput := { ownerId := some 2 }

/-- Update input naming the non-existent owner 99. -/
def udataBad : UpdateAnimalInput := { ownerId := some 99 }

theorem C7_referential_integrity_witness :
    (sampleDB.persons.find? (fun p => p.id == cdataBad.ownerId) = none ∧
     AnimalService.create sampleDB cdataBad = (.error .notFound, sampleDB)) ∧
    (sampleDB.animals.find? (fun b => b.id == 1) = some petRex ∧
     udataBad.ownerId = some 99 ∧ (99 : Nat) ≠ 0 ∧
     sampleDB.persons.find? (fun p => p.id == (99 : Nat)) = none ∧
     AnimalService.update sampleDB 1 udataBad = (.error .notFound, sampleDB)) ∧
    (udataMove.ownerId = some 2 ∧ (2 : Nat) ≠ 0 ∧
     sampleDB.persons.find? (fun p => p.id == (2 : Nat)) = some ownerJohn ∧
     ∃ a2, (AnimalService.update sampleDB 1 udataMove).1 = .ok a2 ∧
       a2.owner = ownerJohn ∧
       ((AnimalService.update sampleDB 1 udataMove).2).animals.find?
         (fun b => b.id == 1) = some a2) :=
  ⟨⟨rfl, (C7_referential_integrity sampleDB cdataBad 1 99 udataBad petRex).1 rfl⟩,
   ⟨rfl, rfl, by decide, rfl,
    ((C7_referential_integrity sampleDB cdataBad 1 99 udataBad petRex).2
      rfl rfl (by decide)).1 rfl⟩,
   ⟨rfl, by decide, rfl,
    ((C7_referential_integrity sampleDB cdataBad 1 2 udataMove petRex).2
      rfl rfl (by decide)).2 ownerJohn rfl⟩⟩

/-- The number of pets of a given species, counted case-sensitively (the
grouping key of `findMostCommonSpecies` is the stored species string). -/
def countSp (l : List Animal) (s : String) : Nat :=
  (l.filter (fun a => decide (a.species = s))).length

/-- Lookup of a key in the entry list of the `speciesCount` record. -/
def countsLookup (counts : List (String × Nat)) (s : String) : Option Nat :=
  (counts.find? (fun p => p.1 == s)).map Prod.snd

theorem bumpCount_lookup_same (acc : List (String × Nat)) (s : String) :
    countsLookup (bumpCount acc s) s = some ((countsLookup acc s).getD 0 + 1) := by
  induction acc with
  | nil => simp [bumpCount, countsLookup]
  | cons q rest ih =>
    obtain ⟨t, v⟩ := q
    by_cases hts : t = s
    · subst hts
      simp [bumpCount, countsLookup, List.find?]
    · have hbeq : (t == s) = false := beq_eq_false_iff_ne.mpr hts
      simp only [bumpCount, if_neg hts, countsLookup, List.find?, hbeq] at ih ⊢
      exact ih

theorem bumpCount_lookup_other (acc : List (String × Nat)) (s t : String)
    (hts : t ≠ s) : countsLookup (bumpCount acc s) t = countsLookup acc t := by
  induction acc with
  | nil =>
    have hbeq : (s == t) = false := beq_eq_false_iff_ne.mpr (Ne.symm hts)
    simp [bumpCount, countsLookup, List.find?, hbeq]
  | cons q rest ih =>
    obtain ⟨u, v⟩ := q
    by_cases hus : u = s
    · subst hus
      have hbeq : (u == t) = false := beq_eq_false_iff_ne.mpr (Ne.symm hts)
      simp [bumpCount, countsLookup, List.find?, hbeq]
    · by_cases hut : u = t
      · subst hut
        simp [bumpCount, if_neg hus, countsLookup, List.find?]
      · have hbeq : (u == t) = false := beq_eq_false_iff_ne.mpr hut
        simp only [bumpCount, if_neg hus, countsLookup, List.find?, hbeq] at ih ⊢
        exact ih

/-- How a lookup result combines with the occurrences seen later. -/
def lkAdd : Option Nat → Nat → Option Nat
  | none, 0 => none
  | o, k => some (o.getD 0 + k)

theorem speciesCounts_fold_lookup (l : List Animal) (acc : List (String × Nat))
    (s : String) :
    countsLookup (l.foldl (fun acc a => bumpCount acc a.species) acc) s =
      lkAdd (countsLookup acc s) (countSp l s) := by
  induction l generalizing acc with
  | nil =>
    cases h : countsLookup acc s <;> simp [countSp, lkAdd, h]
  | cons a l ih =>
    simp only [List.foldl_cons]
    rw [ih (bumpCount acc a.species)]
    by_cases hs : a.species = s
    · subst hs
      rw [bumpCount_lookup_same]
      have hcnt : countSp (a :: l) a.species = countSp l a.species + 1 := by
        simp [countSp, List.filter]
        try omega
      rw [hcnt]
      cases h : countsLookup acc a.species <;> simp [lkAdd, h] <;> try omega
    · rw [bumpCount_lookup_other acc a.species s fun h => hs h.symm]
      have hcnt : countSp (a :: l) s = countSp l s := by
        simp [countSp, List.filter, hs]
      rw [hcnt]

theorem speciesCounts_lookup (l : List Animal) (s : String) :
    countsLookup (speciesCounts l) s = lkAdd none (countSp l s) := by
  have h := speciesCounts_fold_lookup l [] s
  simpa [speciesCounts, countsLookup] using h

theorem countSp_pos_iff (l : List Animal) (s : String) :
    0 < countSp l s ↔ ∃ a ∈ l, a.species = s := by
  rw [countSp, List.length_pos]
  constructor
  · intro h
    obtain ⟨a, ha⟩ := List.exists_mem_of_ne_nil _ h
    have := List.mem_filter.mp ha
    exact ⟨a, this.1, by simpa using this.2⟩
  · rintro ⟨a, hal, has⟩
    intro hnil
    have : a ∈ l.filter (fun a => decide (a.species = s)) :=
      List.mem_filter.mpr ⟨hal, by simpa using has⟩
    rw [hnil] at this
    exact List.not_mem_nil a this

theorem bumpCount_keys (acc : List (String × Nat)) (s : String) :
    (bumpCount acc s).map Prod.fst =
      if s ∈ acc.map Prod.fst then acc.map Prod.fst else acc.map Prod.fst ++ [s] := by
  induction acc with
  | nil => simp [bumpCount]
  | cons q rest ih =>
    obtain ⟨t, v⟩ := q
    by_cases hts : t = s
    · subst hts
      simp [bumpCount]
    · have hst : ¬s = t := fun h => hts h.symm
      by_cases hmem : s ∈ rest.map Prod.fst
      · simp [bumpCount, hts, ih, hmem, hst]
      · simp [bumpCount, hts, ih, hmem, hst]

theorem bumpCount_keys_nodup (acc : List (String × Nat)) (s : String)
    (h : (acc.map Prod.fst).Nodup) : ((bumpCount acc s).map Prod.fst).Nodup := by
  rw [bumpCount_keys]
  by_cases hmem : s ∈ acc.map Prod.fst
  · simpa [hmem] using h
  · rw [if_neg hmem]
    refine List.Nodup.append h (List.nodup_singleton s) ?_
    intro x hx hxs
    exact hmem ((List.mem_singleton.mp hxs) ▸ hx)

theorem speciesCounts_keys_nodup (l : List Animal) :
    ((speciesCounts l).map Prod.fst).Nodup := by
  suffices h : ∀ acc : List (String × Nat), (acc.map Prod.fst).Nodup →
      ((l.foldl (fun acc a => bumpCount acc a.species) acc).map Prod.fst).Nodup by
    exact h [] (by simp)
  induction l with
  | nil => exact fun acc h => h
  | cons a l ih => exact fun acc h => ih _ (bumpCount_keys_nodup acc a.species h)

theorem counts_mem_iff_lookup (counts : List (String × Nat)) (s : String) (c : Nat)
    (h : (counts.map Prod.fst).Nodup) :
    (s, c) ∈ counts ↔ countsLookup counts s = some c := by
  induction counts with
  | nil => simp [countsLookup]
  | cons q rest ih =>
    obtain ⟨t, v⟩ := q
    have hnd : (rest.map Prod.fst).Nodup := (List.nodup_cons.mp (by simpa using h)).2
    have htn : t ∉ rest.map Prod.fst := (List.nodup_cons.mp (by simpa using h)).1
    by_cases hts : t = s
    · subst hts
      constructor
      · intro hmem
        rcases List.mem_cons.mp hmem with hh | hh
        · have hcv : c = v := by
            have := congrArg Prod.snd hh
            simpa using this
          subst hcv
          simp [countsLookup, List.find?]
        · exact absurd (by simpa using List.mem_map_of_mem Prod.fst hh) htn
      · intro hlk
        have hvc : v = c := by
          simpa [countsLookup, List.find?] using hlk
        exact hvc ▸ List.mem_cons_self _ _
    · have hbeq : (t == s) = false := beq_eq_false_iff_ne.mpr hts
      constructor
      · intro hmem
        rcases List.mem_cons.mp hmem with hh | hh
        · exact absurd (congrArg Prod.fst hh).symm hts
        · have := (ih hnd).mp hh
          simpa [countsLookup, List.find?, hbeq] using this
      · intro hlk
        have : countsLookup rest s = some c := by
          simpa [countsLookup, List.find?, hbeq] using hlk
        exact List.mem_cons_of_mem _ ((ih hnd).mpr this)

theorem length_le_bumpCount (acc : List (String × Nat)) (s : String) :
    acc.length ≤ (bumpCount acc s).length := by
  induction acc with
  | nil => simp [bumpCount]
  | cons q rest ih =>
    obtain ⟨t, v⟩ := q
    by_cases hts : t = s
    · simp [bumpCount, hts]
    · simpa [bumpCount, hts] using ih

theorem speciesCounts_ne_nil (l : List Animal) (hl : l ≠ []) : speciesCounts l ≠ [] := by
  have hlen : ∀ (xs : List Animal) (acc : List (String × Nat)),
      acc.length ≤ (xs.foldl (fun acc a => bumpCount acc a.species) acc).length := by
    intro xs
    induction xs with
    | nil => exact fun acc => le_refl _
    | cons a xs ih =>
      intro acc
      exact le_trans (length_le_bumpCount acc a.species) (ih _)
  match l, hl with
  | a0 :: rest, _ =>
    have h1 : 1 ≤ (speciesCounts (a0 :: rest)).length := by
      have := hlen rest (bumpCount [] a0.species)
      simpa [speciesCounts, bumpCount] using this
    intro h
    rw [h] at h1
    exact absurd h1 (by simp)

theorem insertByCountDesc_perm (p : String × Nat) (l : List (String × Nat)) :
    List.Perm (insertByCountDesc p l) (p :: l) := by
  induction l with
  | nil => exact List.Perm.refl _
  | cons q rest ih =>
    by_cases h : q.2 < p.2
    · simp [insertByCountDesc, h]
    · simp only [insertByCountDesc, if_neg h]
      exact (ih.cons q).trans (List.Perm.swap p q rest)

theorem sortByCountDesc_perm (l : List (String × Nat)) :
    List.Perm (sortByCountDesc l) l := by
  induction l with
  | nil => exact List.Perm.refl _
  | cons p rest ih =>
    exact (insertByCountDesc_perm p (sortByCountDesc rest)).trans (ih.cons p)

theorem insertByCountDesc_pairwise (p : String × Nat) (l : List (String × Nat))
    (h : l.Pairwise (fun a b => b.2 ≤ a.2)) :
    (insertByCountDesc p l).Pairwise (fun a b => b.2 ≤ a.2) := by
  induction l with
  | nil => simp [insertByCountDesc]
  | cons q rest ih =>
    obtain ⟨hq, hrest⟩ := List.pairwise_cons.mp h
    by_cases hlt : q.2 < p.2
    · simp only [insertByCountDesc, if_pos hlt]
      rw [List.pairwise_cons]
      refine ⟨?_, h⟩
      intro b hb
      rcases List.mem_cons.mp hb with hbq | hbr
      · exact hbq ▸ hlt.le
      · exact (hq b hbr).trans hlt.le
    · simp only [insertByCountDesc, if_neg hlt]
      rw [List.pairwise_cons]
      refine ⟨?_, ih hrest⟩
      intro b hb
      have hb2 : b ∈ p :: rest := (insertByCountDesc_perm p rest).mem_iff.mp hb
      rcases List.mem_cons.mp hb2 with hbp | hbr
      · exact hbp ▸ Nat.le_of_not_lt hlt
      · exact hq b hbr

theorem sortByCountDesc_pairwise (l : List (String × Nat)) :
    (sortByCountDesc l).Pairwise (fun a b => b.2 ≤ a.2) := by
  induction l with
  | nil => simp [sortByCountDesc]
  | cons p rest ih => exact insertByCountDesc_pairwise p _ ih

theorem findMostCommonSpecies_eq_of_sorted (oracle : TrOracle) (l : List Animal)
    (top : String × Nat) (tail : List (String × Nat)) (hl : l ≠ [])
    (hst : sortByCountDesc (speciesCounts l) = top :: tail) :
    AnimalService.findMostCommonSpecies oracle l =
      some (((top :: tail).filter (fun p => decide (p.2 = top.2))).map
        (fun p => { species := p.1, count := p.2
                    specieTranslated := TranslationHelper.translate oracle p.1 })) := by
  match l, hl with
  | a0 :: rest, _ =>
    simp only [AnimalService.findMostCommonSpecies, hst]

/-- C4: for a non-empty table, most-common-species returns the pairs of
exactly those species whose case-sensitive occurrence count is maximal,
each paired with that count; the empty table gives the null sentinel. -/
theorem C4_most_common_species (oracle : TrOracle) (l : List Animal) :
    (l ≠ [] → ∃ r, AnimalService.findMostCommonSpecies oracle l = some r ∧
      ∀ s c, (∃ e ∈ r, e.species = s ∧ e.count = c) ↔
        ((∃ a ∈ l, a.species = s) ∧ c = countSp l s ∧ ∀ t, countSp l t ≤ c)) ∧
    AnimalService.findMostCommonSpecies oracle [] = none := by
  refine ⟨?_, rfl⟩
  intro hl
  have hcne : speciesCounts l ≠ [] := speciesCounts_ne_nil l hl
  have hsne : sortByCountDesc (speciesCounts l) ≠ [] := by
    intro h
    have hlen := (sortByCountDesc_perm (speciesCounts l)).length_eq
    rw [h] at hlen
    exact hcne (List.eq_nil_of_length_eq_zero hlen.symm)
  obtain ⟨top, tail, hst⟩ := List.exists_cons_of_ne_nil hsne
  have hperm : List.Perm (top :: tail) (speciesCounts l) :=
    hst ▸ sortByCountDesc_perm (speciesCounts l)
  have hpair := sortByCountDesc_pairwise (speciesCounts l)
  rw [hst] at hpair
  have hnd := speciesCounts_keys_nodup l
  have htopmem : top ∈ speciesCounts l := hperm.subset (List.mem_cons_self _ _)
  have hmax : ∀ p ∈ speciesCounts l, p.2 ≤ top.2 := by
    intro p hp
    rcases List.mem_cons.mp (hperm.mem_iff.mpr hp) with h | h
    · exact h ▸ le_refl _
    · exact (List.pairwise_cons.mp hpair).1 p h
  have hmemiff : ∀ s c, ((s, c) ∈ speciesCounts l) ↔ (0 < c ∧ c = countSp l s) := by
    intro s c
    rw [counts_mem_iff_lookup _ _ _ hnd, speciesCounts_lookup]
    cases hcs : countSp l s with
    | zero =>
      simp only [lkAdd]
      constructor
      · intro h
        exact absurd h (by simp)
      · rintro ⟨hpos, hc⟩
        omega
    | succ k =>
      simp only [lkAdd, Option.getD_none, Option.some.injEq]
      constructor
      · intro h
        constructor <;> omega
      · rintro ⟨hpos, hc⟩
        omega
  have htop2 : 0 < top.2 ∧ top.2 = countSp l top.1 := (hmemiff top.1 top.2).mp (by
    simpa using htopmem)
  refine ⟨_, findMostCommonSpecies_eq_of_sorted oracle l top tail hl hst, ?_⟩
  intro s c
  constructor
  · rintro ⟨e, hem, hes, hec⟩
    obtain ⟨p, hpf, hpe⟩ := List.mem_map.mp hem
    obtain ⟨hps, hpt⟩ := List.mem_filter.mp hpf
    have hpt2 : p.2 = top.2 := of_decide_eq_true hpt
    have hpc : p ∈ speciesCounts l := hperm.subset hps
    have hs : p.1 = s := by
      rw [← hes, ← hpe]
    have hc : p.2 = c := by
      rw [← hec, ← hpe]
    have hchar := (hmemiff p.1 p.2).mp (by simpa using hpc)
    refine ⟨?_, ?_, ?_⟩
    · exact (countSp_pos_iff l s).mp (hs ▸ (hchar.2 ▸ hchar.1))
    · rw [← hc, ← hs]
      exact hchar.2
    · intro t
      cases hct : countSp l t with
      | zero => omega
      | succ k =>
        have hmem : (t, countSp l t) ∈ speciesCounts l :=
          (hmemiff t (countSp l t)).mpr ⟨by omega, rfl⟩
        have := hmax (t, countSp l t) hmem
        omega
  · rintro ⟨⟨a, hal, has⟩, hc, hmaxc⟩
    have hpos : 0 < countSp l s := (countSp_pos_iff l s).mpr ⟨a, hal, has⟩
    have hmem : (s, c) ∈ speciesCounts l := (hmemiff s c).mpr ⟨hc ▸ hpos, hc⟩
    have hle1 : c ≤ top.2 := hmax (s, c) hmem
    have hle2 : top.2 ≤ c := htop2.2 ▸ hmaxc top.1
    have hceq : c = top.2 := le_antisymm hle1 hle2
    refine ⟨{ species := s, count := c
              specieTranslated := TranslationHelper.translate oracle s }, ?_, rfl, rfl⟩
    have hmemst : (s, c) ∈ top :: tail := hperm.mem_iff.mpr hmem
    have hfilt : (s, c) ∈ (top :: tail).filter (fun p => decide (p.2 = top.2)) :=
      List.mem_filter.mpr ⟨hmemst, by simpa using hceq⟩
    exact List.mem_map_of_mem _ hfilt

theorem C4_most_common_species_witness :
    ([petRex, petMia] ≠ []) ∧
    (∃ r, AnimalService.findMostCommonSpecies failingOracle [petRex, petMia] = some r ∧
      ∀ s c, (∃ e ∈ r, e.species = s ∧ e.count = c) ↔
        ((∃ a ∈ [petRex, petMia], a.species = s) ∧ c = countSp [petRex, petMia] s ∧
         ∀ t, countSp [petRex, petMia] t ≤ c)) :=
  ⟨by decide, (C4_most_common_species failingOracle [petRex, petMia]).1 (by decide)⟩
